import Mathlib

/-
Verification development for the cryptographic core of `ss-ecdsa-poc`.

Modelling conventions (shallow embedding of the Rust source):

* Scalars (`FE`, arithmetic mod the secp256k1 group order) are modelled as
  `ZMod q` with the modulus `q` kept as a parameter; the source instantiates
  `q` with the secp256k1 group order, an odd prime larger than 2.  Theorems
  that need field structure assume `Fact (Nat.Prime q)`.

* Curve points (`GE`) live in a cyclic group of prime order `q` generated by
  `G`, so the exponential map `a ↦ a·G` is a group isomorphism from
  `(ZMod q, +)`.  We represent a point by its discrete logarithm: point
  addition becomes `+`, scalar multiplication of a point by a scalar becomes
  `*` in `ZMod q`, and the generator `G` is represented by `1`.
  Compressed-point serialization is injective on points, so it is modelled by
  the (injective) value map `ZMod.val`.

* The Merlin transcript is modelled as the ordered log of its absorb/squeeze
  operations (`Transcript`), and `challenge_bytes` as an arbitrary function
  (`ChallengeOracle`) of the log accumulated so far plus the challenge label;
  squeezing is recorded in the log, which models the fact that extracting
  challenge bytes advances the strobe state.  Two merlin transcripts that
  were initialised with the same domain separator and have absorbed the same
  messages are byte-identical exactly when their logs are equal.

* The transcript-seeded RNG draws (`TranscriptRng::fill_bytes`) are modelled
  by explicit parameters (a stream `rs` of blinding scalars, a `nonce`),
  since the RNG is an out-of-scope external collaborator.
-/

/-- Data carried by one transcript `append_message` call: a byte-string label
used as message body, a serialized curve point, or a raw 32-byte value
(nonce or commitment bytes) abstracted as a natural number. -/
inductive TData where
  | bytes (s : String)
  | pt (n : ℕ)
  | raw (n : ℕ)
deriving DecidableEq

/-- One transcript operation: an `append_message label data` absorb, or the
state change caused by a `challenge_bytes label` squeeze. -/
inductive TEntry where
  | app (label : String) (d : TData)
  | squeeze (label : String)
deriving DecidableEq

/-- A merlin transcript, represented by the ordered log of the operations
performed on it since initialisation. -/
structure Transcript where
  log : List TEntry
deriving DecidableEq

/-- The idealised `challenge_bytes` primitive: 32 output bytes (as a natural
number) determined by the transcript state and the challenge label. -/
abbrev ChallengeOracle := List TEntry → String → ℕ

/-- Transcript `append_message`. -/
def append_message (t : Transcript) (label : String) (d : TData) : Transcript :=
  ⟨t.log ++ [.app label d]⟩

/- byte-string labels appearing in `nizk_sigma_proof.rs` -/

def schTag : String := "sch"

def ddhTag : String := "ddh"

def gTag : String := "g"

def gxTag : String := "gx"

def hTag : String := "h"

def hxTag : String := "hx"

def commSchTag : String := "comm-sch"

def commDdhTag : String := "comm-ddh"

def grTag : String := "gr"

def hrTag : String := "hr"

/-- The domain-separation label absorbed by `start_proof`.  Note the source
spells it `comit` (a single `m`), byte literal `b"comit-nizk-sigma-proof/1.0"`
in `nizk_sigma_proof.rs`. -/
def startProofTag : String := "comit-nizk-sigma-proof/1.0"

def chalTag : String := "chal"

/-- `StatementKind` from `nizk_sigma_proof.rs`: a Schnorr statement kind
carries the base `g`, a DDH kind carries the two bases `g, h`. -/
inductive StatementKind (q : ℕ) where
  | schnorr (g : ZMod q)
  | ddh (g : ZMod q) (h : ZMod q)
deriving DecidableEq

/-- `Statement`: a kind together with its public images. -/
inductive Statement (q : ℕ) where
  | schnorr (g : ZMod q) (gx : ZMod q)
  | ddh (g : ZMod q) (gx : ZMod q) (h : ZMod q) (hx : ZMod q)
deriving DecidableEq

/-- `LabelledStatement`: a statement with the byte label binding it to a
protocol role. -/
structure LabelledStatement (q : ℕ) where
  label : String
  statement : Statement q
deriving DecidableEq

/-- The Σ-protocol commitment (`Commitment` in `nizk_sigma_proof.rs`; renamed
to avoid clashing with the committed-NIZK `Commitment` type). -/
inductive SigmaCommitment (q : ℕ) where
  | schnorr (gr : ZMod q)
  | ddh (gr : ZMod q) (hr : ZMod q)
deriving DecidableEq

/-- `Witness`: secret scalar, statement kind, label. -/
structure Witness (q : ℕ) where
  x : ZMod q
  kind : StatementKind q
  label : String

/-- `CompactProof`: shared challenge plus one `(response, labelled statement)`
pair per witness, in witness order. -/
structure CompactProof (q : ℕ) where
  challenge : ZMod q
  responses : List (ZMod q × LabelledStatement q)
deriving DecidableEq

/-- `StatementKind::gen_commitment`: commit with blinding `r`. -/
def StatementKind.gen_commitment (q : ℕ) : StatementKind q → ZMod q → SigmaCommitment q
  | .schnorr g, r => .schnorr (g * r)
  | .ddh g h, r => .ddh (g * r) (h * r)

/-- `Statement::recover_commitment`: rebuild the commitment from a response
and `-c` (`gr = g*s + gx*(-c)`, plus the `h` side for DDH). -/
def Statement.recover_commitment (q : ℕ) :
    Statement q → ZMod q → ZMod q → SigmaCommitment q
  | .schnorr g gx, minus_c, s => .schnorr (g * s + gx * minus_c)
  | .ddh g gx h hx, minus_c, s => .ddh (g * s + gx * minus_c) (h * s + hx * minus_c)

/-- `Witness::to_statement`: evaluate the public images of a witness. -/
def Witness.to_statement (q : ℕ) (w : Witness q) : LabelledStatement q :=
  match w.kind with
  | .schnorr g => ⟨w.label, .schnorr g (g * w.x)⟩
  | .ddh g h => ⟨w.label, .ddh g (g * w.x) h (h * w.x)⟩

/-- Point serialization (injective on the point model). -/
def ser (q : ℕ) (p : ZMod q) : ℕ := p.val

/-- `KeyGenTranscript::add_point`. -/
def add_point (q : ℕ) (t : Transcript) (label : String) (p : ZMod q) : Transcript :=
  append_message t label (.pt (ser q p))

/-- `KeyGenTranscript::add_statement`. -/
def add_statement (q : ℕ) (t : Transcript) (ls : LabelledStatement q) : Transcript :=
  match ls.statement with
  | .schnorr g gx =>
    add_point q (add_point q (append_message t schTag (.bytes ls.label)) gTag g) gxTag gx
  | .ddh g gx h hx =>
    add_point q (add_point q (add_point q (add_point q
      (append_message t ddhTag (.bytes ls.label)) gTag g) gxTag gx) hTag h) hxTag hx

/-- `KeyGenTranscript::add_commitment`. -/
def add_commitment (q : ℕ) (t : Transcript) (label : String)
    (c : SigmaCommitment q) : Transcript :=
  match c with
  | .schnorr gr =>
    add_point q (append_message t commSchTag (.bytes label)) grTag gr
  | .ddh gr hr =>
    add_point q (add_point q (append_message t commDdhTag (.bytes label)) grTag gr) hrTag hr

/-- `KeyGenTranscript::start_proof`: absorbs the (mis-spelt) domain separator
with the proof label as message body. -/
def start_proof (t : Transcript) (label : String) : Transcript :=
  append_message t startProofTag (.bytes label)

/-- `KeyGenTranscript::get_challenge`: 32 challenge bytes reduced to a scalar
mod `q`; squeezing advances the transcript state. -/
def get_challenge (q : ℕ) (oracle : ChallengeOracle) (t : Transcript)
    (label : String) : ZMod q × Transcript :=
  (((oracle t.log label : ℕ) : ZMod q), ⟨t.log ++ [.squeeze label]⟩)

/-- The statement-absorbing map of `CompactProof::prove`: computes each
witness's statement and absorbs it as it goes, returning the statements in
order together with the updated transcript. -/
def absorb_statements (q : ℕ) :
    Transcript → List (Witness q) → List (LabelledStatement q) × Transcript
  | t, [] => ([], t)
  | t, w :: ws =>
    let statement := Witness.to_statement q w
    let t' := add_statement q t statement
    let rest := absorb_statements q t' ws
    (statement :: rest.1, rest.2)

/-- `produce_commitment`, with the sequential RNG draws made explicit: the
`i`-th call to `fill_bytes` yields the blinding scalar `rs i`. -/
def produce_commitment_aux (q : ℕ) (rs : ℕ → ZMod q) :
    ℕ → Transcript → List (Witness q) → List (ZMod q × SigmaCommitment q) × Transcript
  | _, t, [] => ([], t)
  | i, t, w :: ws =>
    let r := rs i
    let commitment := StatementKind.gen_commitment q w.kind r
    let t' := add_commitment q t w.label commitment
    let rest := produce_commitment_aux q rs (i + 1) t' ws
    ((r, commitment) :: rest.1, rest.2)

/-- `produce_commitment(transcript, witnesses)`: draw a blinding per witness,
absorb each commitment. -/
def produce_commitment (q : ℕ) (rs : ℕ → ZMod q) (t : Transcript)
    (ws : List (Witness q)) : List (ZMod q × SigmaCommitment q) × Transcript :=
  produce_commitment_aux q rs 0 t ws

/-- `CompactProof::prove`. -/
def prove (q : ℕ) (oracle : ChallengeOracle) (rs : ℕ → ZMod q) (t : Transcript)
    (label : String) (witnesses : List (Witness q)) : CompactProof q × Transcript :=
  let t1 := start_proof t label
  let st := absorb_statements q t1 witnesses
  let statements := st.1
  let pc := produce_commitment q rs st.2 witnesses
  let commitments := pc.1
  let ch := get_challenge q oracle pc.2 chalTag
  let c := ch.1
  let response_scalars := (witnesses.zip commitments).map (fun wc => wc.2.1 + c * wc.1.x)
  ({ challenge := c, responses := response_scalars.zip statements }, ch.2)

/-- The deterministic absorb phase of `CompactProof::verify` (steps before the
challenge squeeze): domain separation, statements in proof order, recovered
commitments in proof order. -/
def verify_absorb (q : ℕ) (p : CompactProof q) (t : Transcript)
    (label : String) : Transcript :=
  let t1 := start_proof t label
  let t2 := p.responses.foldl (fun tr r => add_statement q tr r.2) t1
  let minus_c := (0 : ZMod q) - p.challenge
  p.responses.foldl
    (fun tr r =>
      add_commitment q tr r.2.label
        (Statement.recover_commitment q r.2.statement minus_c r.1)) t2

/-- `CompactProof::verify`: recompute the challenge and compare. -/
def verify (q : ℕ) (oracle : ChallengeOracle) (p : CompactProof q) (t : Transcript)
    (label : String) : Bool × Transcript :=
  let t3 := verify_absorb q p t label
  let ch := get_challenge q oracle t3 chalTag
  (decide (p.challenge = ch.1), ch.2)

/-- `CompactProof::get_response`: look a response up by label.  The source
calls `.expect("non-existent proof response")` on the lookup, i.e. it panics
when the label is absent; the `none` result models that panic. -/
def get_response (q : ℕ) (p : CompactProof q) (label : String) :
    Option (ZMod q × Statement q) :=
  match p.responses.find? (fun r => r.2.label == label) with
  | some r => some (r.1, r.2.statement)
  | none => none

/- `commited_nizk.rs` -/

def commitedNizkNonceTag : String := "ss-ecdsa-poc/commited-nizk/commited-transcript/1.0"

def nonceTag : String := "nonce"

def commitedNizkCommitmentTag : String := "ss-ecdsa-poc/commited-nizk/commitment/1.0"

def commitmentTag : String := "commitment"

/-- The 32-byte commitment value (`Commitment([u8; 32])` in
`commited_nizk.rs`), abstracted as a natural number. -/
structure NizkCommitment where
  val : ℕ
deriving DecidableEq

/-- `Opening`: the revealed nonce together with the revealed proof. -/
structure Opening (q : ℕ) where
  nonce : ℕ
  proof : CompactProof q
deriving DecidableEq

/-- `CommitedNizkTranscript::add_commited_nizk_nonce`. -/
def add_commited_nizk_nonce (t : Transcript) (label : String) (nonce : ℕ) : Transcript :=
  append_message (append_message t commitedNizkNonceTag (.bytes label)) nonceTag (.raw nonce)

/-- `CommitedNizkTranscript::add_commitment`: absorb a committed-NIZK
commitment into the live transcript. -/
def add_nizk_commitment (t : Transcript) (label : String) (c : NizkCommitment) : Transcript :=
  append_message (append_message t commitedNizkCommitmentTag (.bytes label))
    commitmentTag (.raw c.val)

/-- `CommitedNizkTranscript::get_commitment`: hash the transcript by squeezing
32 challenge bytes labelled `"commitment"`. -/
def get_commitment (oracle : ChallengeOracle) (t : Transcript) : ℕ × Transcript :=
  (oracle t.log commitmentTag, ⟨t.log ++ [.squeeze commitmentTag]⟩)

/-- `commit_nizk`: prove on a private fork of the live transcript, blind the
fork with a witness-seeded nonce, squeeze the commitment bytes from the fork,
and absorb the commitment into the live transcript.  The nonce drawn from the
witness-seeded RNG is the explicit `nonce` parameter. -/
def commit_nizk (q : ℕ) (oracle : ChallengeOracle) (rs : ℕ → ZMod q) (nonce : ℕ)
    (t : Transcript) (label : String) (witness : List (Witness q)) :
    (NizkCommitment × Opening q) × Transcript :=
  let fork := t
  let pr := prove q oracle rs fork label witness
  let fork1 := add_commited_nizk_nonce pr.2 label nonce
  let commitment := (get_commitment oracle fork1).1
  let live := add_nizk_commitment t label ⟨commitment⟩
  ((⟨commitment⟩, ⟨nonce, pr.1⟩), live)

/-- `Opener`: the transcript snapshot captured before the commitment was
absorbed, the stored commitment, and the proof label. -/
structure Opener where
  transcript : Transcript
  commitment : NizkCommitment
  label : String

/-- `Opener::open` (renamed: `open` is a Lean keyword): fork the snapshot,
verify the revealed proof against it, absorb the revealed nonce, squeeze the
commitment bytes and compare with the stored commitment.  `none` models
`Err(())`. -/
def Opener.open_nizk (q : ℕ) (oracle : ChallengeOracle) (o : Opener)
    (opening : Opening q) : Option (CompactProof q) :=
  let v := verify q oracle opening.proof o.transcript o.label
  if !v.1 then none
  else
    let t2 := add_commited_nizk_nonce v.2 o.label opening.nonce
    let commitment := (get_commitment oracle t2).1
    if commitment = o.commitment.val then some opening.proof else none

/-- `Commitment::receive`: snapshot the transcript, absorb the commitment into
the live transcript, return the opener (and the updated live transcript). -/
def NizkCommitment.receive (c : NizkCommitment) (t : Transcript) (label : String) :
    Opener × Transcript :=
  let commitment_transcript := t
  (⟨commitment_transcript, c, label⟩, add_nizk_commitment t label c)

/- `lib.rs` -/

/-- The generator `G` in discrete-logarithm coordinates. -/
def genG (q : ℕ) : ZMod q := 1

/-- `KeyPair` from `lib.rs`. -/
structure KeyPair (q : ℕ) where
  secret_key : ZMod q
  public_key : ZMod q
deriving DecidableEq

/-- `impl From<FE> for KeyPair`: `pk = sk·G`. -/
def KeyPair.fromFE (q : ℕ) (secret_key : ZMod q) : KeyPair q :=
  { secret_key := secret_key, public_key := genG q * secret_key }

/-- `KeyPair::new_random`: fill 32 bytes from the RNG (the `rng_bytes`
parameter, `< 2^256`), interpret them as a big integer and reduce mod `q`
(`ECScalar::from`), then derive the public key. -/
def KeyPair.new_random (q : ℕ) (rng_bytes : ℕ) : KeyPair q :=
  KeyPair.fromFE q ((rng_bytes : ZMod q))

/-- The secp256k1 group order, the modulus the source instantiates `q` with. -/
def secpOrder : ℕ := 115792089237316195423570985008687907852837564279074904382605163141518161494337

/- `messages.rs` -/

def xAlphaBobLabel : String := "X_alpha_bob"

def xBetaBobLabel : String := "X_beta_bob"

def rBetaRedeemBobLabel : String := "R_beta_redeem_bob"

def rBetaRefundBobLabel : String := "R_beta_refund_bob"

/-- `BobPoints`. -/
structure BobPoints (q : ℕ) where
  X_alpha : ZMod q
  X_beta : ZMod q
  R_beta_redeem : ZMod q
  R_beta_refund : ZMod q
deriving DecidableEq

/-- `BobResponses`. -/
structure BobResponses (q : ℕ) where
  X_alpha : ZMod q
  X_beta : ZMod q
  R_beta_redeem : ZMod q
  R_beta_refund : ZMod q
deriving DecidableEq

/-- `CommitmentOpening`: Bob's opening as it travels in `KeyGenMsg3`. -/
structure CommitmentOpening (q : ℕ) where
  nonce : ℕ
  points : BobPoints q
  challenge : ZMod q
  responses : BobResponses q
deriving DecidableEq

/-- `impl From<CommitmentOpening> for Opening<CompactProof>` from
`messages.rs`: rebuild Bob's proof with the four fixed labels in the fixed
order `X_alpha, X_beta, R_beta_redeem, R_beta_refund`, all Schnorr over the
generator. -/
def openingFromCommitmentOpening (q : ℕ) (opening : CommitmentOpening q) : Opening q :=
  let points := opening.points
  let responses := opening.responses
  let g := genG q
  { nonce := opening.nonce
    proof :=
      { challenge := opening.challenge
        responses :=
          [ (responses.X_alpha,
              ⟨xAlphaBobLabel, .schnorr g points.X_alpha⟩),
            (responses.X_beta,
              ⟨xBetaBobLabel, .schnorr g points.X_beta⟩),
            (responses.R_beta_redeem,
              ⟨rBetaRedeemBobLabel, .schnorr g points.R_beta_redeem⟩),
            (responses.R_beta_refund,
              ⟨rBetaRefundBobLabel, .schnorr g points.R_beta_refund⟩) ] } }

/- `alice.rs` -/

/-- `AliceKeys`. -/
structure AliceKeys (q : ℕ) where
  y : KeyPair q
  x_beta : KeyPair q
  r_beta_redeem : KeyPair q
  r_beta_refund : KeyPair q
deriving DecidableEq

/-- `Alice1`: holds the opener for Bob's commitment and Alice's keys. -/
structure Alice1 (q : ℕ) where
  bob_commitment : Opener
  keys : AliceKeys q

/-- `Alice2` (the fields the source carries forward; the PDL challenge is an
opaque value produced by the out-of-scope Paillier collaborator). -/
structure Alice2 (q : ℕ) where
  keys : AliceKeys q
  bob_points : BobPoints q
  X_beta : ZMod q
  N_and_c : ℕ
  pdl_challenge : ℕ

/-- `Alice1::apply_labels_to_opening` from `alice.rs`: the private helper
that rebuilds Bob's proof from a `CommitmentOpening`. -/
def Alice1.apply_labels_to_opening (q : ℕ) (opening : CommitmentOpening q) : Opening q :=
  let points := opening.points
  let responses := opening.responses
  let g := genG q
  { nonce := opening.nonce
    proof :=
      { challenge := opening.challenge
        responses :=
          [ (responses.X_alpha,
              ⟨xAlphaBobLabel, .schnorr g points.X_alpha⟩),
            (responses.X_beta,
              ⟨xBetaBobLabel, .schnorr g points.X_beta⟩),
            (responses.R_beta_redeem,
              ⟨rBetaRedeemBobLabel, .schnorr g points.R_beta_redeem⟩),
            (responses.R_beta_refund,
              ⟨rBetaRefundBobLabel, .schnorr g points.R_beta_refund⟩) ] } }

/-- `KeyGenMsg3`.  The Paillier material (`N_and_c`, the correct-key proof and
the range proof) belongs to out-of-scope external collaborators; the two
proofs are abstracted by the verdicts their external verifiers would return
(`paillier_correct_key_ok`, `paillier_range_ok`). -/
structure KeyGenMsg3 (q : ℕ) where
  commitment_opening : CommitmentOpening q
  N_and_c : ℕ
  paillier_range_ok : Bool
  paillier_correct_key_ok : Bool

/-- `Alice1::receive_message` from `alice.rs`: open Bob's commitment
(re-verifying his NIZK), then validate the Paillier correct-key proof.  The
range-proof validation is commented out in the source (the
`HACK: ARRG STOP THE RANGE PROOF FOR NOW` block), so
`msg.paillier_range_ok` is never consulted.  `none` models `Err(())`; the
returned PDL first message is produced by the external Paillier collaborator
and is not modelled. -/
def Alice1.receive_message (q : ℕ) (oracle : ChallengeOracle) (a : Alice1 q)
    (msg : KeyGenMsg3 q) : Option (Alice2 q) :=
  let bob_points := msg.commitment_opening.points
  let opening := Alice1.apply_labels_to_opening q msg.commitment_opening
  match Opener.open_nizk q oracle a.bob_commitment opening with
  | none => none
  | some _ =>
    if msg.paillier_correct_key_ok then
      some { keys := a.keys
             bob_points := bob_points
             X_beta := bob_points.X_beta * a.keys.x_beta.secret_key
             N_and_c := msg.N_and_c
             pdl_challenge := 0 }
    else none

/- `bob.rs`, `Bob5` and `extract_y` -/

/-- The x-coordinate of the point `a·G`, in the discrete-log point model: the
points `a·G` and `(-a)·G` share an x-coordinate and no other point has it, so
the canonical representative `min a.val (q - a.val)` is a faithful model.
(The source unwraps `x_coor()`, which requires `a ≠ 0`; the claims only
evaluate it on nonzero points.) -/
def x_coor (q : ℕ) (a : ZMod q) : ℕ := min a.val (q - a.val)

/-- The y-coordinate of the point `a·G`: on a prime-order curve group distinct
nonzero scalars give distinct `(x, y)` pairs and `y` distinguishes `a·G` from
`(-a)·G`, so the discrete logarithm's value is a faithful model. -/
def y_coor (q : ℕ) (a : ZMod q) : ℕ := a.val

/-- `Bob5`: the state from which Bob watches the chain. -/
structure Bob5 (q : ℕ) where
  X_beta : ZMod q
  s_beta_redeem_missing_y : ZMod q
  Y : ZMod q

/-- `Bob5::extract_y`: candidate `y_maybe = s⁻¹ · s''_redeem`; compare
`y_maybe·G` with the stored `Y` on x- and y-coordinates; on x-match/y-mismatch
return `BigInt::mod_sub(q, y_maybe, q)` (the source's `(q - y_maybe) mod q`),
on full match return `y_maybe`, on x-mismatch return `Err` (modelled `none`). -/
def Bob5.extract_y (q : ℕ) (b : Bob5 q) (s : ZMod q) : Option (ZMod q) :=
  let y_maybe := s⁻¹ * b.s_beta_redeem_missing_y
  let Y_maybe := genG q * y_maybe
  if x_coor q Y_maybe = x_coor q b.Y then
    if y_coor q Y_maybe ≠ y_coor q b.Y then
      some (((q - y_maybe.val) % q : ℕ) : ZMod q)
    else
      some y_maybe
  else
    none

/- Structural lemmas about the transcript log. -/

/-- The log entries absorbed by `add_statement`. -/
def stmtEnts (q : ℕ) (ls : LabelledStatement q) : List TEntry :=
  match ls.statement with
  | .schnorr g gx =>
    [.app schTag (.bytes ls.label), .app gTag (.pt (ser q g)), .app gxTag (.pt (ser q gx))]
  | .ddh g gx h hx =>
    [.app ddhTag (.bytes ls.label), .app gTag (.pt (ser q g)), .app gxTag (.pt (ser q gx)),
     .app hTag (.pt (ser q h)), .app hxTag (.pt (ser q hx))]

/-- The log entries absorbed by `add_commitment`. -/
def commEnts (q : ℕ) (label : String) (c : SigmaCommitment q) : List TEntry :=
  match c with
  | .schnorr gr =>
    [.app commSchTag (.bytes label), .app grTag (.pt (ser q gr))]
  | .ddh gr hr =>
    [.app commDdhTag (.bytes label), .app grTag (.pt (ser q gr)), .app hrTag (.pt (ser q hr))]

theorem add_statement_log (q : ℕ) (t : Transcript) (ls : LabelledStatement q) :
    (add_statement q t ls).log = t.log ++ stmtEnts q ls := by
  cases hs : ls.statement <;>
    simp [add_statement, stmtEnts, add_point, append_message, hs, List.append_assoc]

theorem add_commitment_log (q : ℕ) (t : Transcript) (label : String)
    (c : SigmaCommitment q) :
    (add_commitment q t label c).log = t.log ++ commEnts q label c := by
  cases c <;>
    simp [add_commitment, commEnts, add_point, append_message, List.append_assoc]

/-- The honest response list of `prove`: the `i`-th witness contributes the
response `rs i + c * x` and its statement. -/
def respList (q : ℕ) (rs : ℕ → ZMod q) (c : ZMod q) :
    ℕ → List (Witness q) → List (ZMod q × LabelledStatement q)
  | _, [] => []
  | i, w :: ws => (rs i + c * w.x, Witness.to_statement q w) :: respList q rs c (i + 1) ws

theorem absorb_statements_fst (q : ℕ) :
    ∀ (ws : List (Witness q)) (t : Transcript),
      (absorb_statements q t ws).1 = ws.map (Witness.to_statement q) := by
  intro ws
  induction ws with
  | nil => intro t; simp [absorb_statements]
  | cons w ws ih => intro t; simp [absorb_statements, ih]

theorem zip_resp (q : ℕ) (rs : ℕ → ZMod q) (c : ZMod q) :
    ∀ (ws : List (Witness q)) (i : ℕ) (t : Transcript),
      (((ws.zip ((produce_commitment_aux q rs i t ws).1)).map
          (fun wc => wc.2.1 + c * wc.1.x)).zip (ws.map (Witness.to_statement q)))
        = respList q rs c i ws := by
  intro ws
  induction ws with
  | nil => intro i t; simp [produce_commitment_aux, respList]
  | cons w ws ih =>
    intro i t
    simp only [produce_commitment_aux, respList, List.zip_cons_cons, List.map_cons]
    exact congrArg _ (ih (i + 1) _)

theorem fold_stmt_resp (q : ℕ) (rs : ℕ → ZMod q) (c : ZMod q) :
    ∀ (ws : List (Witness q)) (i : ℕ) (t : Transcript),
      (respList q rs c i ws).foldl (fun tr r => add_statement q tr r.2) t
        = (absorb_statements q t ws).2 := by
  intro ws
  induction ws with
  | nil => intro i t; simp [respList, absorb_statements]
  | cons w ws ih =>
    intro i t
    simp only [respList, absorb_statements, List.foldl_cons]
    exact ih (i + 1) _

theorem to_statement_label (q : ℕ) (w : Witness q) :
    (Witness.to_statement q w).label = w.label := by
  cases hk : w.kind <;> simp [Witness.to_statement, hk]

/-- The verifier's recomputation `g*s + gx*(-c)` on an honest response
`s = r + c*x` recovers the prover's commitment `g*r`. -/
theorem recover_of_honest (q : ℕ) (w : Witness q) (c r : ZMod q) :
    Statement.recover_commitment q (Witness.to_statement q w).statement
        ((0 : ZMod q) - c) (r + c * w.x)
      = StatementKind.gen_commitment q w.kind r := by
  cases hk : w.kind with
  | schnorr g =>
    simp only [Witness.to_statement, hk, Statement.recover_commitment,
      StatementKind.gen_commitment, SigmaCommitment.schnorr.injEq]
    ring
  | ddh g h =>
    simp only [Witness.to_statement, hk, Statement.recover_commitment,
      StatementKind.gen_commitment, SigmaCommitment.ddh.injEq]
    constructor <;> ring

theorem fold_comm_resp (q : ℕ) (rs : ℕ → ZMod q) (c : ZMod q) :
    ∀ (ws : List (Witness q)) (i : ℕ) (t : Transcript),
      (respList q rs c i ws).foldl
          (fun tr r =>
            add_commitment q tr r.2.label
              (Statement.recover_commitment q r.2.statement ((0 : ZMod q) - c) r.1)) t
        = (produce_commitment_aux q rs i t ws).2 := by
  intro ws
  induction ws with
  | nil => intro i t; simp [respList, produce_commitment_aux]
  | cons w ws ih =>
    intro i t
    simp only [respList, produce_commitment_aux, List.foldl_cons]
    rw [recover_of_honest, to_statement_label]
    exact ih (i + 1) _

/-- Explicit description of `prove`: its challenge is the oracle value at the
post-commitment log, its responses are `respList`, and its final transcript is
that log followed by the challenge squeeze. -/
theorem prove_spec (q : ℕ) (oracle : ChallengeOracle) (rs : ℕ → ZMod q)
    (t : Transcript) (L : String) (ws : List (Witness q)) :
    (prove q oracle rs t L ws).1.challenge
        = ((oracle ((produce_commitment_aux q rs 0
            (absorb_statements q (start_proof t L) ws).2 ws).2).log chalTag : ℕ) : ZMod q)
      ∧ (prove q oracle rs t L ws).1.responses
        = respList q rs ((prove q oracle rs t L ws).1.challenge) 0 ws
      ∧ (prove q oracle rs t L ws).2
        = ⟨((produce_commitment_aux q rs 0
            (absorb_statements q (start_proof t L) ws).2 ws).2).log ++ [.squeeze chalTag]⟩ := by
  refine ⟨rfl, ?_, rfl⟩
  show ((ws.zip ((produce_commitment_aux q rs 0 _ ws).1)).map _).zip
      (absorb_statements q (start_proof t L) ws).1 = _
  rw [absorb_statements_fst, zip_resp]
  rfl

/-- Core convergence: verifying an honestly produced proof on a transcript
with the same history succeeds and leaves the verifier's transcript equal to
the prover's. -/
theorem verify_prove_eq (q : ℕ) (oracle : ChallengeOracle) (rs : ℕ → ZMod q)
    (t : Transcript) (L : String) (ws : List (Witness q)) :
    verify q oracle ((prove q oracle rs t L ws).1) t L
      = (true, (prove q oracle rs t L ws).2) := by
  obtain ⟨hc, hr, ht⟩ := prove_spec q oracle rs t L ws
  show (decide ((prove q oracle rs t L ws).1.challenge = _), _) = _
  rw [verify_absorb, hr, fold_stmt_resp, fold_comm_resp]
  refine Prod.ext ?_ ?_
  · show decide _ = true
    rw [decide_eq_true_eq]
    exact hc
  · show Transcript.mk _ = _
    rw [ht]

def testTag : String := "test"

/-- C1: Σ-engine completeness: for every non-empty witness list and proof
label, a proof produced by `CompactProof::prove` on one transcript verifies
(returns `true`) via `CompactProof::verify` run with the same label on a
second transcript with the same domain and history. -/
theorem sigma_completeness (q : ℕ) (oracle : ChallengeOracle) (rs : ℕ → ZMod q)
    (t : Transcript) (L : String) (ws : List (Witness q)) (_hne : ws ≠ []) :
    (verify q oracle ((prove q oracle rs t L ws).1) t L).1 = true := by
  rw [verify_prove_eq]

/-- Witness for C1 at a concrete instance: one Schnorr witness mod 7. -/
theorem sigma_completeness_witness :
    ([⟨2, .schnorr 1, ("foo")⟩] : List (Witness 7)) ≠ [] ∧
      (verify 7 (fun l _ => l.length)
          ((prove 7 (fun l _ => l.length) (fun i => (i : ZMod 7)) ⟨[]⟩ ("sp")
            [⟨2, .schnorr 1, ("foo")⟩]).1) ⟨[]⟩ ("sp")).1 = true :=
  ⟨by simp, sigma_completeness 7 (fun l _ => l.length) (fun i => (i : ZMod 7)) ⟨[]⟩ ("sp")
    [⟨2, .schnorr 1, ("foo")⟩] (by simp)⟩

/-- C7: transcript convergence: after `prove` on one transcript and `verify`
of the resulting proof on a second transcript with the same history, the two
transcripts are in identical states, and a subsequent
`challenge_bytes("test")` extraction yields the same value on both. -/
theorem transcript_convergence (q : ℕ) (oracle : ChallengeOracle) (rs : ℕ → ZMod q)
    (t : Transcript) (L : String) (ws : List (Witness q)) :
    (prove q oracle rs t L ws).2 = (verify q oracle ((prove q oracle rs t L ws).1) t L).2
    ∧ (get_challenge q oracle ((prove q oracle rs t L ws).2) testTag).1
      = (get_challenge q oracle ((verify q oracle ((prove q oracle rs t L ws).1) t L).2) testTag).1 := by
  rw [verify_prove_eq]
  exact ⟨rfl, rfl⟩

/-- C5: committed-NIZK completeness: `commit_nizk` on one transcript followed
by `Commitment::receive` and `Opener::open` of the honest opening on an
identically initialised transcript returns `Ok` with the revealed proof. -/
theorem commit_receive_open_ok (q : ℕ) (oracle : ChallengeOracle) (rs : ℕ → ZMod q)
    (nonce : ℕ) (t : Transcript) (L : String) (ws : List (Witness q)) :
    Opener.open_nizk q oracle
        ((NizkCommitment.receive ((commit_nizk q oracle rs nonce t L ws).1.1) t L).1)
        ((commit_nizk q oracle rs nonce t L ws).1.2)
      = some ((commit_nizk q oracle rs nonce t L ws).1.2.proof) := by
  unfold Opener.open_nizk NizkCommitment.receive commit_nizk
  simp [verify_prove_eq]

/- Log-extension lemmas: every absorb step appends to the log. -/

theorem absorb_statements_log_ext (q : ℕ) :
    ∀ (ws : List (Witness q)) (t : Transcript),
      ∃ r, ((absorb_statements q t ws).2).log = t.log ++ r := by
  intro ws
  induction ws with
  | nil => intro t; exact ⟨[], by simp [absorb_statements]⟩
  | cons w ws ih =>
    intro t
    obtain ⟨r, hr⟩ := ih (add_statement q t (Witness.to_statement q w))
    refine ⟨stmtEnts q (Witness.to_statement q w) ++ r, ?_⟩
    simp only [absorb_statements]
    rw [hr, add_statement_log, List.append_assoc]

theorem produce_commitment_aux_log_ext (q : ℕ) (rs : ℕ → ZMod q) :
    ∀ (ws : List (Witness q)) (i : ℕ) (t : Transcript),
      ∃ r, ((produce_commitment_aux q rs i t ws).2).log = t.log ++ r := by
  intro ws
  induction ws with
  | nil => intro i t; exact ⟨[], by simp [produce_commitment_aux]⟩
  | cons w ws ih =>
    intro i t
    obtain ⟨r, hr⟩ := ih (i + 1)
      (add_commitment q t w.label (StatementKind.gen_commitment q w.kind (rs i)))
    refine ⟨commEnts q w.label (StatementKind.gen_commitment q w.kind (rs i)) ++ r, ?_⟩
    simp only [produce_commitment_aux]
    rw [hr, add_commitment_log, List.append_assoc]

theorem foldl_add_statement_log_ext (q : ℕ)
    (rsp : List (ZMod q × LabelledStatement q)) (t : Transcript) :
    ∃ r, ((rsp.foldl (fun tr x => add_statement q tr x.2) t)).log = t.log ++ r := by
  induction rsp generalizing t with
  | nil => exact ⟨[], by simp⟩
  | cons a rsp ih =>
    obtain ⟨r, hr⟩ := ih (add_statement q t a.2)
    refine ⟨stmtEnts q a.2 ++ r, ?_⟩
    simp only [List.foldl_cons]
    rw [hr, add_statement_log, List.append_assoc]

theorem foldl_add_commitment_log_ext (q : ℕ) (c : ZMod q)
    (rsp : List (ZMod q × LabelledStatement q)) (t : Transcript) :
    ∃ r, ((rsp.foldl (fun tr x =>
        add_commitment q tr x.2.label
          (Statement.recover_commitment q x.2.statement c x.1)) t)).log
      = t.log ++ r := by
  induction rsp generalizing t with
  | nil => exact ⟨[], by simp⟩
  | cons a rsp ih =>
    obtain ⟨r, hr⟩ := ih (add_commitment q t a.2.label
      (Statement.recover_commitment q a.2.statement c a.1))
    refine ⟨commEnts q a.2.label (Statement.recover_commitment q a.2.statement c a.1) ++ r, ?_⟩
    simp only [List.foldl_cons]
    rw [hr, add_commitment_log, List.append_assoc]

/-- The log of `prove`'s final transcript: the input log, then the
`start_proof` entry, then the rest. -/
theorem prove_log_shape (q : ℕ) (oracle : ChallengeOracle) (rs : ℕ → ZMod q)
    (t : Transcript) (L : String) (ws : List (Witness q)) :
    ∃ r, ((prove q oracle rs t L ws).2).log
      = t.log ++ (TEntry.app startProofTag (.bytes L) :: r) := by
  obtain ⟨_, _, ht⟩ := prove_spec q oracle rs t L ws
  obtain ⟨r1, hr1⟩ := absorb_statements_log_ext q ws (start_proof t L)
  obtain ⟨r2, hr2⟩ := produce_commitment_aux_log_ext q rs ws 0
    (absorb_statements q (start_proof t L) ws).2
  refine ⟨r1 ++ r2 ++ [.squeeze chalTag], ?_⟩
  rw [ht]
  show (_ : List TEntry) ++ _ = _
  rw [hr2, hr1]
  simp [start_proof, append_message, List.append_assoc]

/-- The log of `verify`'s final transcript: the input log, then the
`start_proof` entry, then the rest. -/
theorem verify_log_shape (q : ℕ) (oracle : ChallengeOracle) (p : CompactProof q)
    (t : Transcript) (L : String) :
    ∃ r, ((verify q oracle p t L).2).log
      = t.log ++ (TEntry.app startProofTag (.bytes L) :: r) := by
  obtain ⟨r1, hr1⟩ := foldl_add_statement_log_ext q p.responses (start_proof t L)
  obtain ⟨r2, hr2⟩ := foldl_add_commitment_log_ext q ((0 : ZMod q) - p.challenge)
    p.responses
    (p.responses.foldl (fun tr x => add_statement q tr x.2) (start_proof t L))
  refine ⟨r1 ++ r2 ++ [.squeeze chalTag], ?_⟩
  show (verify_absorb q p t L).log ++ _ = _
  show ((p.responses.foldl _ _ : Transcript)).log ++ _ = _
  rw [hr2, hr1]
  simp [start_proof, append_message, List.append_assoc]

/-- C8 counterexample: the domain-separation label the code absorbs is the
mis-spelt `"comit-nizk-sigma-proof/1.0"`, not `"commit-nizk-sigma-proof/1.0"`
as the claim states: at a concrete input the first absorbed entry differs
from the claimed one. -/
theorem domain_separator_counterexample :
    ¬ (((prove 7 (fun _ _ => 0) (fun _ => 0) ⟨[]⟩ ("plbl") []).2).log.take 1
        = [TEntry.app ("commit-nizk-sigma-proof/1.0") (.bytes ("plbl"))]) := by
  decide

/-- C8 amended: both `prove` and `verify` begin by absorbing exactly one
message with label bytes `"comit-nizk-sigma-proof/1.0"` (as spelt in the
source) and body equal to the proof label. -/
theorem domain_separator_amended (q : ℕ) (oracle : ChallengeOracle)
    (rs : ℕ → ZMod q) (t : Transcript) (L : String) (ws : List (Witness q))
    (p : CompactProof q) :
    ((prove q oracle rs t L ws).2).log.take (t.log.length + 1)
        = t.log ++ [TEntry.app startProofTag (.bytes L)]
    ∧ ((verify q oracle p t L).2).log.take (t.log.length + 1)
        = t.log ++ [TEntry.app startProofTag (.bytes L)] := by
  constructor
  · obtain ⟨r, hr⟩ := prove_log_shape q oracle rs t L ws
    rw [hr]
    rw [show t.log ++ (TEntry.app startProofTag (.bytes L) :: r)
        = (t.log ++ [TEntry.app startProofTag (.bytes L)]) ++ r by simp]
    exact List.take_left' (by simp)
  · obtain ⟨r, hr⟩ := verify_log_shape q oracle p t L
    rw [hr]
    rw [show t.log ++ (TEntry.app startProofTag (.bytes L) :: r)
        = (t.log ++ [TEntry.app startProofTag (.bytes L)]) ++ r by simp]
    exact List.take_left' (by simp)

/-- The statement entries absorbed by the statement phase of `verify`:
concatenation of `stmtEnts` over the responses in order. -/
def stmtEntsOf (q : ℕ) (rsp : List (ZMod q × LabelledStatement q)) : List TEntry :=
  (rsp.map (fun r => stmtEnts q r.2)).flatten

/-- The commitment entries absorbed by the commitment phase of `verify` for
challenge `c`: concatenation of `commEnts` over the recovered commitments in
order. -/
def commEntsOf (q : ℕ) (c : ZMod q) (rsp : List (ZMod q × LabelledStatement q)) :
    List TEntry :=
  (rsp.map (fun r => commEnts q r.2.label
    (Statement.recover_commitment q r.2.statement ((0 : ZMod q) - c) r.1))).flatten

theorem foldl_add_statement_log_eq (q : ℕ) :
    ∀ (rsp : List (ZMod q × LabelledStatement q)) (t : Transcript),
      ((rsp.foldl (fun tr x => add_statement q tr x.2) t)).log
        = t.log ++ stmtEntsOf q rsp := by
  intro rsp
  induction rsp with
  | nil => intro t; simp [stmtEntsOf]
  | cons a rsp ih =>
    intro t
    simp only [List.foldl_cons]
    rw [ih, add_statement_log]
    simp [stmtEntsOf, List.append_assoc]

theorem foldl_add_commitment_log_eq (q : ℕ) (c : ZMod q) :
    ∀ (rsp : List (ZMod q × LabelledStatement q)) (t : Transcript),
      ((rsp.foldl (fun tr x =>
          add_commitment q tr x.2.label
            (Statement.recover_commitment q x.2.statement ((0 : ZMod q) - c) x.1)) t)).log
        = t.log ++ commEntsOf q c rsp := by
  intro rsp
  induction rsp with
  | nil => intro t; simp [commEntsOf]
  | cons a rsp ih =>
    intro t
    simp only [List.foldl_cons]
    rw [ih, add_commitment_log]
    simp [commEntsOf, List.append_assoc]

/-- The full log of `verify`'s absorb phase: input log, `start_proof` entry,
the statement entries in proof order, the recovered-commitment entries in
proof order. -/
theorem verify_absorb_log (q : ℕ) (p : CompactProof q) (t : Transcript) (L : String) :
    (verify_absorb q p t L).log
      = t.log ++ (TEntry.app startProofTag (.bytes L)
          :: (stmtEntsOf q p.responses ++ commEntsOf q p.challenge p.responses)) := by
  show ((p.responses.foldl _ (p.responses.foldl (fun tr r => add_statement q tr r.2)
    (start_proof t L)) : Transcript)).log = _
  rw [foldl_add_commitment_log_eq, foldl_add_statement_log_eq]
  simp [start_proof, append_message, List.append_assoc]

theorem respList_map_snd (q : ℕ) (rs : ℕ → ZMod q) (c : ZMod q) :
    ∀ (ws : List (Witness q)) (i : ℕ),
      (respList q rs c i ws).map (fun r => r.2) = ws.map (Witness.to_statement q) := by
  intro ws
  induction ws with
  | nil => intro i; simp [respList]
  | cons w ws ih =>
    intro i
    simp only [respList, List.map_cons]
    exact congrArg _ (ih (i + 1))

theorem stmtEntsOf_eq (q : ℕ) (rsp : List (ZMod q × LabelledStatement q)) :
    stmtEntsOf q rsp
      = ((rsp.map (fun r => r.2)).map (fun st => stmtEnts q st)).flatten := by
  unfold stmtEntsOf
  rw [List.map_map]
  rfl

/-- A `stmtEnts` block followed by an arbitrary suffix determines the
labelled statement: point serialization is injective, and the Schnorr/DDH
kind tags differ, so equal first blocks force equal statements. -/
theorem stmtEnts_append_inj (q : ℕ) [NeZero q] (a b : LabelledStatement q)
    (u v : List TEntry) (h : stmtEnts q a ++ u = stmtEnts q b ++ v) : a = b := by
  obtain ⟨la, sa⟩ := a
  obtain ⟨lb, sb⟩ := b
  cases sa with
  | schnorr g1 gx1 =>
    cases sb with
    | schnorr g2 gx2 =>
      simp only [stmtEnts, ser, List.cons_append, List.cons.injEq, TEntry.app.injEq,
        TData.bytes.injEq, TData.pt.injEq, true_and] at h
      obtain ⟨h1, h2, h3, -⟩ := h
      simp only [LabelledStatement.mk.injEq, Statement.schnorr.injEq]
      exact ⟨h1, ZMod.val_injective q h2, ZMod.val_injective q h3⟩
    | ddh g2 gx2 h2 hx2 =>
      exfalso
      have hh := congrArg List.head? h
      simp only [stmtEnts, List.cons_append, List.head?_cons, Option.some.injEq,
        TEntry.app.injEq] at hh
      exact absurd hh.1 (by decide)
  | ddh g1 gx1 h1 hx1 =>
    cases sb with
    | schnorr g2 gx2 =>
      exfalso
      have hh := congrArg List.head? h
      simp only [stmtEnts, List.cons_append, List.head?_cons, Option.some.injEq,
        TEntry.app.injEq] at hh
      exact absurd hh.1 (by decide)
    | ddh g2 gx2 hh2 hx2 =>
      simp only [stmtEnts, ser, List.cons_append, List.cons.injEq, TEntry.app.injEq,
        TData.bytes.injEq, TData.pt.injEq, true_and] at h
      obtain ⟨h1, h2, h3, h4, h5, -⟩ := h
      simp only [LabelledStatement.mk.injEq, Statement.ddh.injEq]
      exact ⟨h1, ZMod.val_injective q h2, ZMod.val_injective q h3,
        ZMod.val_injective q h4, ZMod.val_injective q h5⟩

/-- C6: order sensitivity.  For every honestly produced proof with at least
two responses: the original proof verifies; whenever the challenge oracle
does not collide on the reversed-absorb and original-absorb logs — the
random-oracle idealisation, which a random oracle violates only with
negligible probability — verifying the reversed-responses proof returns
`false`; and the two absorb logs provably differ whenever the first and last
witness statements differ (in label, kind, or public images). -/
theorem order_sensitivity (q : ℕ) [NeZero q] (oracle : ChallengeOracle)
    (rs : ℕ → ZMod q) (t : Transcript) (L : String) (ws : List (Witness q))
    (_hlen : 2 ≤ ws.length)
    (hcoll : ((oracle (verify_absorb q
          ⟨(prove q oracle rs t L ws).1.challenge,
            (prove q oracle rs t L ws).1.responses.reverse⟩ t L).log chalTag : ℕ) : ZMod q)
        ≠ ((oracle (verify_absorb q ((prove q oracle rs t L ws).1) t L).log
            chalTag : ℕ) : ZMod q)) :
    (verify q oracle ((prove q oracle rs t L ws).1) t L).1 = true
    ∧ (verify q oracle
        ⟨(prove q oracle rs t L ws).1.challenge,
          (prove q oracle rs t L ws).1.responses.reverse⟩ t L).1 = false
    ∧ (∀ w1 wn, ws.head? = some w1 → ws.getLast? = some wn →
        Witness.to_statement q w1 ≠ Witness.to_statement q wn →
        verify_absorb q
            ⟨(prove q oracle rs t L ws).1.challenge,
              (prove q oracle rs t L ws).1.responses.reverse⟩ t L
          ≠ verify_absorb q ((prove q oracle rs t L ws).1) t L) := by
  obtain ⟨hc, hr, -⟩ := prove_spec q oracle rs t L ws
  have h1 : (verify q oracle ((prove q oracle rs t L ws).1) t L).1 = true := by
    rw [verify_prove_eq]
  have hchal : (prove q oracle rs t L ws).1.challenge
      = ((oracle (verify_absorb q ((prove q oracle rs t L ws).1) t L).log
          chalTag : ℕ) : ZMod q) := by
    have hd : (verify q oracle ((prove q oracle rs t L ws).1) t L).1
        = decide ((prove q oracle rs t L ws).1.challenge
          = ((oracle (verify_absorb q ((prove q oracle rs t L ws).1) t L).log
              chalTag : ℕ) : ZMod q)) := rfl
    rw [h1] at hd
    exact of_decide_eq_true hd.symm
  refine ⟨h1, ?_, ?_⟩
  · show decide ((prove q oracle rs t L ws).1.challenge
        = ((oracle (verify_absorb q
            ⟨(prove q oracle rs t L ws).1.challenge,
              (prove q oracle rs t L ws).1.responses.reverse⟩ t L).log
            chalTag : ℕ) : ZMod q)) = false
    rw [decide_eq_false_iff_not]
    intro hcon
    exact hcoll (hcon.symm.trans hchal)
  · intro w1 wn hw1 hwn hst hcon
    have hsnd : (prove q oracle rs t L ws).1.responses.map (fun r => r.2)
        = ws.map (Witness.to_statement q) := by
      rw [hr]
      exact respList_map_snd q rs ((prove q oracle rs t L ws).1.challenge) ws 0
    -- the statement blocks of the original and the reversed absorb phases
    have hstmtA : stmtEntsOf q ((prove q oracle rs t L ws).1.responses)
        = ((ws.map (Witness.to_statement q)).map (fun st => stmtEnts q st)).flatten := by
      rw [stmtEntsOf_eq, hsnd]
    have hstmtR : stmtEntsOf q ((prove q oracle rs t L ws).1.responses.reverse)
        = ((ws.reverse.map (Witness.to_statement q)).map
            (fun st => stmtEnts q st)).flatten := by
      rw [stmtEntsOf_eq]
      rw [List.map_reverse, hsnd, ← List.map_reverse]
    have hlog := congrArg Transcript.log hcon
    rw [verify_absorb_log, verify_absorb_log] at hlog
    dsimp only at hlog
    rw [hstmtA, hstmtR] at hlog
    have h2 := List.append_cancel_left hlog
    have h3 := ((List.cons.injEq _ _ _ _).mp h2).2
    -- expose the first statement block on each side
    cases ws with
    | nil => exact Option.noConfusion hw1
    | cons w0 wtail =>
      have hw0 : w0 = w1 := by
        simpa using hw1
      have hwsrev : (w0 :: wtail).reverse.head? = some wn := by
        rw [List.head?_reverse]
        exact hwn
      cases hrevlist : (w0 :: wtail).reverse with
      | nil => rw [hrevlist] at hwsrev; exact Option.noConfusion hwsrev
      | cons wr wrtail =>
        have hwr : wr = wn := by
          rw [hrevlist] at hwsrev
          simpa using hwsrev
        rw [hrevlist] at h3
        simp only [List.map_cons, List.flatten_cons, List.append_assoc] at h3
        have hab := stmtEnts_append_inj q (Witness.to_statement q wr)
          (Witness.to_statement q w0) _ _ h3
        rw [hwr, hw0] at hab
        exact hst hab.symm

/- A concrete order-sensitive challenge oracle, used to instantiate the
random-oracle hypotheses of the theorems above at concrete inputs. -/

def strEnc (s : String) : ℕ := s.data.foldl (fun a c => a * 256 + c.toNat) 7

def encData : TData → ℕ
  | .bytes s => 2 * strEnc s
  | .pt n => 3 * n + 1
  | .raw n => 5 * n + 2

def encEntry : TEntry → ℕ
  | .app l d => strEnc l + 64 * encData d
  | .squeeze l => 7 * strEnc l

def logHash (l : List TEntry) : ℕ :=
  l.foldl (fun a e => (a * 1009 + encEntry e) % 100003) 3

def oracleW : ChallengeOracle := fun l lbl => logHash l + strEnc lbl

def rsW : ℕ → ZMod 7 := fun i => (i : ZMod 7)

def wA : Witness 7 := ⟨1, .schnorr 1, ("x1")⟩

def wB : Witness 7 := ⟨2, .schnorr 1, ("x2")⟩

set_option maxRecDepth 8000 in
/-- Witness for C6 at a concrete instance: two Schnorr witnesses mod 7 with
distinct labels and an order-sensitive oracle; the honest proof verifies and
the reversed one is rejected. -/
theorem order_sensitivity_witness :
    (verify 7 oracleW ((prove 7 oracleW rsW ⟨[]⟩ ("mp") [wA, wB]).1) ⟨[]⟩ ("mp")).1 = true
    ∧ (verify 7 oracleW
        ⟨(prove 7 oracleW rsW ⟨[]⟩ ("mp") [wA, wB]).1.challenge,
          (prove 7 oracleW rsW ⟨[]⟩ ("mp") [wA, wB]).1.responses.reverse⟩ ⟨[]⟩ ("mp")).1
      = false :=
  let h := @order_sensitivity 7 ⟨by decide⟩ oracleW rsW ⟨[]⟩ ("mp") [wA, wB] (by decide) (by decide)
  ⟨h.1, h.2.1⟩

/- Helper lemmas for `extract_y`. -/

/-- The source's `BigInt::mod_sub(&q, &y, &q)` equals `-y` in `ZMod q`. -/
theorem cast_mod_sub (q : ℕ) [NeZero q] (a : ZMod q) :
    (((q - a.val) % q : ℕ) : ZMod q) = -a := by
  have hlt := ZMod.val_lt a
  rcases Nat.eq_zero_or_pos a.val with h0 | hpos
  · have ha : a = 0 := (ZMod.val_eq_zero a).mp h0
    rw [h0, ha]
    simp
  · rw [Nat.mod_eq_of_lt (by omega)]
    rw [Nat.cast_sub (le_of_lt hlt)]
    simp [ZMod.natCast_self, ZMod.natCast_val, ZMod.cast_id]

/-- A point and its negation share an x-coordinate. -/
theorem x_coor_neg (q : ℕ) [NeZero q] (a : ZMod q) : x_coor q (-a) = x_coor q a := by
  unfold x_coor
  rw [ZMod.neg_val']
  rcases eq_or_ne a 0 with h0 | h0
  · subst h0; simp
  · have hv : a.val < q := ZMod.val_lt a
    have hv0 : a.val ≠ 0 := fun hc => h0 ((ZMod.val_eq_zero a).mp hc)
    rw [Nat.mod_eq_of_lt (by omega), Nat.sub_sub_self (le_of_lt hv)]
    exact Nat.min_comm _ _

/-- In an odd-order group a nonzero scalar differs from its negation. -/
theorem scalar_neg_ne_self (q : ℕ) (hq : 2 < q) [Fact (Nat.Prime q)] (a : ZMod q)
    (h : a ≠ 0) : a ≠ -a := by
  intro hcon
  have h2 : (2 : ZMod q) * a = 0 := by
    rw [two_mul]
    nth_rewrite 2 [hcon]
    ring
  have h2ne : (2 : ZMod q) ≠ 0 := by
    intro h2z
    have hh : ((2 : ℕ) : ZMod q) = 0 := by exact_mod_cast h2z
    have hdvd := (ZMod.natCast_zmod_eq_zero_iff_dvd 2 q).mp hh
    have := Nat.le_of_dvd (by norm_num) hdvd
    omega
  rcases mul_eq_zero.mp h2 with h' | h'
  · exact h2ne h'
  · exact h h'

/-- C4: `Bob5::extract_y` correctness.  In an honest run (the stored
`s''_redeem` is `s₀ · y`, the stored point is `Y = y·G`, and the published
`s` is the possibly low-s-negated `s₀`), the candidate `s⁻¹ · s''_redeem`
lies in `{y, q - y}`, and the two-coordinate comparison resolves the sign so
that extraction returns exactly `y`; moreover for any published scalar whose
candidate fails the x-coordinate comparison, extraction aborts with an
error. -/
theorem extract_y_correct (q : ℕ) [Fact (Nat.Prime q)] (hq : 2 < q)
    (b : Bob5 q) (s s₀ y : ZMod q)
    (hs0 : s₀ ≠ 0) (hy : y ≠ 0)
    (hY : b.Y = y)
    (hstored : b.s_beta_redeem_missing_y = s₀ * y)
    (hpub : s = s₀ ∨ s = -s₀) :
    (s⁻¹ * b.s_beta_redeem_missing_y = y ∨ s⁻¹ * b.s_beta_redeem_missing_y = -y)
    ∧ Bob5.extract_y q b s = some y
    ∧ (∀ x : ZMod q,
        x_coor q (genG q * (x⁻¹ * b.s_beta_redeem_missing_y)) ≠ x_coor q b.Y →
          Bob5.extract_y q b x = none) := by
  have herr : ∀ x : ZMod q,
      x_coor q (genG q * (x⁻¹ * b.s_beta_redeem_missing_y)) ≠ x_coor q b.Y →
        Bob5.extract_y q b x = none := by
    intro x hx
    simp only [Bob5.extract_y]
    rw [if_neg hx]
  rcases hpub with hps | hps
  · have hyc : s⁻¹ * b.s_beta_redeem_missing_y = y := by
      rw [hps, hstored, ← mul_assoc, inv_mul_cancel₀ hs0, one_mul]
    refine ⟨Or.inl hyc, ?_, herr⟩
    simp only [Bob5.extract_y]
    rw [hyc, hY]
    rw [show genG q * y = y from one_mul y]
    rw [if_pos rfl, if_neg (by simp)]
  · have hyc : s⁻¹ * b.s_beta_redeem_missing_y = -y := by
      rw [hps, hstored, inv_neg, neg_mul, ← mul_assoc, inv_mul_cancel₀ hs0, one_mul]
    refine ⟨Or.inr hyc, ?_, herr⟩
    simp only [Bob5.extract_y]
    rw [hyc, hY]
    rw [show genG q * -y = -y from one_mul (-y)]
    rw [if_pos (x_coor_neg q y)]
    have hne : (-y).val ≠ y.val := by
      intro hv
      exact scalar_neg_ne_self q hq y hy ((ZMod.val_injective q hv).symm)
    rw [if_pos (by exact hne)]
    rw [cast_mod_sub, neg_neg]

/-- Witness for C4 at a concrete instance: `q = 5`, `y = 2`, `s₀ = 1`,
published `s = -1 = 4` (the low-s flip), stored `s'' = 2`. -/
theorem extract_y_correct_witness :
    Bob5.extract_y 5 ⟨0, 2, 2⟩ 4 = some 2 := by
  have hp5 : Nat.Prime 5 := by norm_num
  have h1 : (1 : ZMod 5) ≠ 0 := by decide
  have h2 : (2 : ZMod 5) ≠ 0 := by decide
  have h3 : (⟨0, 2, 2⟩ : Bob5 5).Y = 2 := by decide
  have h4 : (⟨0, 2, 2⟩ : Bob5 5).s_beta_redeem_missing_y = 1 * 2 := by decide
  have h5 : (4 : ZMod 5) = 1 ∨ (4 : ZMod 5) = -1 := Or.inr (by decide)
  exact (@extract_y_correct 5 ⟨hp5⟩ (by norm_num) ⟨0, 2, 2⟩ 4 1 2 h1 h2 h3 h4 h5).2.1

/-- C10: the private helper `Alice1::apply_labels_to_opening` and the public
conversion `From<CommitmentOpening> for Opening<CompactProof>` agree on every
`CommitmentOpening`: same nonce, same challenge, and the same four labelled
Schnorr responses in the same order. -/
theorem apply_labels_refines (q : ℕ) (opening : CommitmentOpening q) :
    Alice1.apply_labels_to_opening q opening = openingFromCommitmentOpening q opening := rfl

/-- C3 (code bug evaluation): looking up a response by a label absent from
the proof hits `get_response`'s lookup-failure path — in the source an
`.expect("non-existent proof response")` panic, modelled by `none`; no
`ProofRejected` error value exists anywhere in the source. -/
theorem get_response_missing_label :
    get_response 7 ⟨0, []⟩ ("Y") = none := rfl

/-- C9 counterexample: for the RNG state that fills the 32 bytes with zeros,
`KeyPair::new_random` (at the secp256k1 modulus) yields the secret key `0`,
which does not lie in `[1, q)` as the claim states. -/
theorem new_random_zero_counterexample :
    (KeyPair.new_random secpOrder 0).secret_key = 0
    ∧ ¬ (1 ≤ (KeyPair.new_random secpOrder 0).secret_key.val) := by decide

/-- C9 amended: for every RNG output, `KeyPair::new_random` produces the
secret key equal to the 32 sampled bytes reduced mod `q` — hence lying in
`[0, q)`, with `0` possible — together with the public key `sk·G`. -/
theorem new_random_amended (q : ℕ) [NeZero q] (b : ℕ) :
    (KeyPair.new_random q b).secret_key = ((b : ℕ) : ZMod q)
    ∧ (KeyPair.new_random q b).secret_key.val < q
    ∧ (KeyPair.new_random q b).public_key = genG q * (KeyPair.new_random q b).secret_key :=
  ⟨rfl, ZMod.val_lt _, rfl⟩

/-- Witness for the amended C9 at `q = 7`, RNG output `9`. -/
theorem new_random_amended_witness :
    (KeyPair.new_random 7 9).secret_key = ((9 : ℕ) : ZMod 7)
    ∧ (KeyPair.new_random 7 9).secret_key.val < 7
    ∧ (KeyPair.new_random 7 9).public_key = genG 7 * (KeyPair.new_random 7 9).secret_key :=
  @new_random_amended 7 ⟨by decide⟩ 9

/- Concrete key-generation scenario for C2: Bob commits honestly, Alice
receives the commitment, and Bob's message 3 carries an invalid range proof
(`paillier_range_ok = false`) but a valid correct-key proof. -/

def keygenBobLabel : String := "ssecdsa_keygen_bob"

def oracle0 : ChallengeOracle := fun _ _ => 0

def rs1 : ℕ → ZMod 7 := fun i => ((i + 1 : ℕ) : ZMod 7)

def bobKeygenWitnessC2 : List (Witness 7) :=
  [⟨1, .schnorr (genG 7), xAlphaBobLabel⟩,
   ⟨2, .schnorr (genG 7), xBetaBobLabel⟩,
   ⟨3, .schnorr (genG 7), rBetaRedeemBobLabel⟩,
   ⟨4, .schnorr (genG 7), rBetaRefundBobLabel⟩]

def bobCommitC2 : (NizkCommitment × Opening 7) × Transcript :=
  commit_nizk 7 oracle0 rs1 9 ⟨[]⟩ keygenBobLabel bobKeygenWitnessC2

def alice1C2 : Alice1 7 :=
  ⟨(NizkCommitment.receive bobCommitC2.1.1 ⟨[]⟩ keygenBobLabel).1,
   ⟨KeyPair.fromFE 7 1, KeyPair.fromFE 7 2, KeyPair.fromFE 7 3, KeyPair.fromFE 7 4⟩⟩

def respAt (i : ℕ) : ZMod 7 :=
  ((bobCommitC2.1.2.proof.responses[i]?).map (fun r => r.1)).getD 0

def keyGenMsg3C2 : KeyGenMsg3 7 :=
  ⟨⟨bobCommitC2.1.2.nonce, ⟨1, 2, 3, 4⟩, bobCommitC2.1.2.proof.challenge,
    ⟨respAt 0, respAt 1, respAt 2, respAt 3⟩⟩, 0, false, true⟩

/-- C2 (code bug evaluation): a `KeyGenMsg3` whose commitment opens correctly
and whose correct-key proof is valid, but whose range proof is invalid, is
accepted by `Alice1::receive_message` and produces an `Alice2` state — the
range-proof check is commented out in the source. -/
theorem alice1_accepts_invalid_range_proof :
    keyGenMsg3C2.paillier_range_ok = false
    ∧ (Alice1.receive_message 7 oracle0 alice1C2 keyGenMsg3C2).isSome = true :=
  ⟨rfl, by decide⟩
